import Mathlib

/-!
Verification of the conversational completion engine of `llmedge`
(`src/llmedge/src/main/cpp/LLMInference.cpp` and the JNI glue in
`smollm.cpp`), shallowly embedded in Lean.

Strings from the C++ side are modelled as byte lists (`List Nat`), the
external llama.cpp backend (chat-template renderer, tokenizer, decoder,
sampler) as an `Oracles` record of abstract functions, and the mutable
`LLMInference` object as an explicit `EngineState` record.  Methods that
can throw return the mutated state together with an `Except Err` result,
mirroring the fact that C++ member mutations performed before a `throw`
survive the exception.
-/

namespace LLMEdge

/-- Byte list of an ASCII string literal (code points = bytes for ASCII). -/

def strBytes (s : String) : List Nat := s.data.map Char.toNat

/-- The `"system"` role string. -/

def sysBytes : List Nat := strBytes "system"

/-- The `"user"` role string. -/

def userBytes : List Nat := strBytes "user"

/-- The `"assistant"` role string. -/

def assistantBytes : List Nat := strBytes "assistant"

/-- The reasoning-suppression marker `"/no_think"`. -/

def noThinkBytes : List Nat := strBytes "/no_think"

/-! ## UTF-8 validity, embedded from `LLMInference::_isValidUtf8`
(`LLMInference.cpp` lines 205-238).

The C function scans the NUL-terminated buffer of a `std::string`: the
outer loop runs `while (*bytes != 0x00)`, so a `0x00` byte read at a
leading-byte position ends the scan with `true` and every byte after it is
accepted unexamined (this is how the function treats both the terminator
and any NUL embedded in the content).  A non-NUL leading byte picks the
character length `num` (1, 2, 3 or 4) from its high bits, after which the
inner `for` loop checks `num - 1` continuation bytes of shape `10xxxxxx`
without any NUL check of its own: a `0x00` read there, including the
terminator when the string ends mid-character, simply fails the
continuation test.

We model the `std::string` content (which may itself contain `0x00`) as a
byte list and express the two nested C loops as one structural scan whose
`pending` argument is the number of continuation bytes still owed for the
current character (the C loop counter `num - i`).  The end of the list
plays the role of the appended terminator: reached with `pending == 0` the
outer loop would exit with `true`, reached with `pending > 0` the inner
loop would read `0x00` and fail, which is the same Boolean `pending == 0`. -/

/-- Continuation-byte test `(b & 0xC0) == 0x80`. -/

def contByte (b : Nat) : Bool := b &&& 0xC0 == 0x80

/-- The byte scan of `LLMInference::_isValidUtf8`: `pending` continuation
bytes are still owed for the character currently being read.  At a leading
position a `0x00` byte stops the scan with `true` (the C `while` guard);
at a continuation position it is just a failing continuation byte. -/

def utf8Scan : Nat → List Nat → Bool
  | pending, [] => pending == 0
  | 0, b :: rest =>
      if b == 0 then true
      else if b &&& 0x80 == 0 then utf8Scan 0 rest
      else if b &&& 0xE0 == 0xC0 then utf8Scan 1 rest
      else if b &&& 0xF0 == 0xE0 then utf8Scan 2 rest
      else if b &&& 0xF8 == 0xF0 then utf8Scan 3 rest
      else false
  | p + 1, b :: rest => contByte b && utf8Scan p rest

/-- Embedding of `LLMInference::_isValidUtf8` on the byte-list content. -/

def isValidUtf8 (l : List Nat) : Bool := utf8Scan 0 l

/-- Inductive view of `isValidUtf8`: a byte list that parses as a chain of
complete 1-to-4-byte sequences, or reaches a NUL at a leading position
(after which the scan accepts the rest unexamined).  The negated guards
make cases disjoint and mirror the branch order of the C code. -/

inductive ValidSeq : List Nat → Prop where
  | nil : ValidSeq []
  | nulStop {r : List Nat} : ValidSeq (0 :: r)
  | one {b : Nat} {r : List Nat} :
      (b == 0) = false →
      (b &&& 0x80 == 0) = true → ValidSeq r → ValidSeq (b :: r)
  | two {b c1 : Nat} {r : List Nat} :
      (b == 0) = false →
      (b &&& 0x80 == 0) = false → (b &&& 0xE0 == 0xC0) = true →
      contByte c1 = true → ValidSeq r → ValidSeq (b :: c1 :: r)
  | three {b c1 c2 : Nat} {r : List Nat} :
      (b == 0) = false →
      (b &&& 0x80 == 0) = false → (b &&& 0xE0 == 0xC0) = false →
      (b &&& 0xF0 == 0xE0) = true →
      contByte c1 = true → contByte c2 = true → ValidSeq r →
      ValidSeq (b :: c1 :: c2 :: r)
  | four {b c1 c2 c3 : Nat} {r : List Nat} :
      (b == 0) = false →
      (b &&& 0x80 == 0) = false → (b &&& 0xE0 == 0xC0) = false →
      (b &&& 0xF0 == 0xE0) = false → (b &&& 0xF8 == 0xF0) = true →
      contByte c1 = true → contByte c2 = true → contByte c3 = true →
      ValidSeq r → ValidSeq (b :: c1 :: c2 :: c3 :: r)

/-! ## The UTF-8 boundary buffer

`completionLoop` (`LLMInference.cpp` lines 275 and 293-300) appends each
decoded piece to `_cacheResponseTokens`; if the result passes
`_isValidUtf8` it is returned to the caller and the buffer is cleared,
otherwise the empty string is returned and the bytes stay buffered. -/

/-- One push through the boundary buffer: result is `(emitted, new buffer)`. -/

def pushOne (buf frag : List Nat) : List Nat × List Nat :=
  let b := buf ++ frag
  if isValidUtf8 b then (b, []) else ([], b)

/-- Push a list of fragments in order; result is the concatenation of all
emitted outputs, paired with the final buffer content. -/

def pushChunks (buf : List Nat) : List (List Nat) → List Nat × List Nat
  | [] => ([], buf)
  | f :: rest =>
    let r := pushOne buf f
    let later := pushChunks r.2 rest
    (r.1 ++ later.1, later.2)

/-! ## Engine data model

The fields of `EngineState` mirror the members of class `LLMInference`
(`LLMInference.h`), plus the observable backend cache state for sequence 0
(`cacheMax`, the value `llama_memory_seq_pos_max` would report, `-1` when
empty), a ghost decode counter, and two ghost fields recording the
arguments of the last renderer/tokenizer invocation so that "what the
renderer saw" is stateable. -/

deriving instance DecidableEq for Except

/-- One chat turn (`llama_chat_message`): role and content byte strings. -/

structure Msg where
  role : List Nat
  content : List Nat
  deriving DecidableEq

/-- The staged `llama_batch`: token ids plus their target cache positions
(`_batch->token` / `_batch->pos`; `n_tokens` is the length). -/

structure Batch where
  tokens : List Int
  pos : List Int
  deriving DecidableEq

/-- Error taxonomy of the engine, mapping each C++ `throw` site. -/

inductive Err where
  | renderError
  | emptyPrompt
  | promptTooLarge
  | noActiveBatch
  | contextExceeded
  | decodeFailed
  deriving DecidableEq

/-- Result of one `completionLoop` step: the `"[EOG]"` sentinel or a byte
fragment (possibly empty, when bytes stay buffered). -/

inductive StepOut where
  | eog
  | frag (bytes : List Nat)
  deriving DecidableEq

/-- State of one `LLMInference` object together with the backend cache. -/

structure EngineState where
  messages : List Msg
  prevLen : Int
  storeChats : Bool
  disableThinking : Bool
  reasoningBudget : Int
  responseGenerationTime : Int
  responseNumTokens : Int
  response : List Nat
  cacheResponseTokens : List Nat
  batch : Option Batch
  cacheMax : Int
  decodeCount : Nat
  nCtxUsed : Int
  nCtx : Int
  nBatch : Int
  renderArg : List Msg
  addSpecialArg : Bool
  deriving DecidableEq

/-- The external llama.cpp collaborators, as abstract deterministic
functions: chat-template rendering (`llama_chat_apply_template`, `none`
for a negative return), tokenization (`common_tokenize` with the
`add_special` flag), decode success, sampling, EOG test, detokenization
and the measured decode time. -/

structure Oracles where
  render : List Msg → Bool → Option (List Nat)
  tokenize : List Nat → Bool → List Int
  decodeOk : Bool
  sample : Int
  isEog : Int → Bool
  pieceOf : Int → List Nat
  timeDelta : Int

/-- `static_cast<int>` of a nonnegative 64-bit value: two's-complement
wrap of the low 32 bits. -/

def toInt32 (n : Int) : Int :=
  let m := n % 4294967296
  if m ≥ 2147483648 then m - 4294967296 else m

/-- The state produced by `LLMInference::loadModel` (`LLMInference.cpp`
lines 13-80): `contextSize` is clamped into `[1, 2^32-1]` and the batch
width is `min(static_cast<int>(safeContext), 512)`. -/

def loadState (contextSize : Int) (storeChats : Bool) : EngineState :=
  let safe := max 1 (min contextSize 4294967295)
  { messages := []
    prevLen := 0
    storeChats := storeChats
    disableThinking := false
    reasoningBudget := -1
    responseGenerationTime := 0
    responseNumTokens := 0
    response := []
    cacheResponseTokens := []
    batch := none
    cacheMax := -1
    decodeCount := 0
    nCtxUsed := 0
    nCtx := safe
    nBatch := min (toInt32 safe) 512
    renderArg := []
    addSpecialArg := false }

/-- `LLMInference::addChatMessage`: append a turn. -/

def addChatMessage (st : EngineState) (message role : List Nat) : EngineState :=
  { st with messages := st.messages ++ [{ role := role, content := message }] }

/-- `LLMInference::setReasoningOptions` (`LLMInference.cpp` lines 317-323):
`_disableThinking := disableThinking || reasoningBudget == 0`. -/

def setReasoningOptions (st : EngineState) (disableThinking : Bool)
    (reasoningBudget : Int) : EngineState :=
  { st with
    disableThinking := disableThinking || decide (reasoningBudget = 0)
    reasoningBudget := reasoningBudget }

/-! ## startCompletion (`LLMInference.cpp` lines 115-201), staged. -/

/-- The `_messages` erase loop of `startCompletion` (lines 118-126):
drop every turn whose role differs from `"system"` (`strcmp != 0`),
keeping the rest in order. -/

def eraseNonSystem : List Msg → List Msg
  | [] => []
  | m :: rest =>
    if m.role == sysBytes then m :: eraseNonSystem rest else eraseNonSystem rest

/-- Reset on disabled persistence (lines 117-129).  Zeroing the
`_formattedMessages` scratch buffer has no observable effect here because
the renderer rewrites it from scratch. -/

def resetPhase (st : EngineState) : EngineState :=
  if st.storeChats then st
  else { st with messages := eraseNonSystem st.messages, prevLen := 0 }

/-- Per-turn resets (lines 130-133). -/

def clearTurnState (st : EngineState) : EngineState :=
  { st with
    responseGenerationTime := 0
    responseNumTokens := 0
    response := []
    cacheResponseTokens := [] }

/-- Does `q` contain `pat` as a contiguous byte run
(`std::string::find(pat) != npos`)? -/

def bytesStartWith : List Nat → List Nat → Bool
  | [], _ => true
  | _ :: _, [] => false
  | p :: ps, c :: cs => p == c && bytesStartWith ps cs

def containsSub (pat : List Nat) : List Nat → Bool
  | [] => pat.isEmpty
  | c :: cs => bytesStartWith pat (c :: cs) || containsSub pat cs

/-- The reasoning-suppression query rewrite (lines 134-142): when
suppression is active and the query lacks the `/no_think` marker, the
marker is prepended (followed by a newline when the query is non-empty). -/

def computeFinalQuery (disableThinking : Bool) (reasoningBudget : Int)
    (q : List Nat) : List Nat :=
  let suppressThinking := disableThinking || decide (reasoningBudget = 0)
  if suppressThinking && !(containsSub noThinkBytes q) then
    if q.isEmpty then noThinkBytes else noThinkBytes ++ 10 :: q
  else q

/-- Apply the reasoning policy and append the query as a `user` turn
(lines 134-143); `renderArg` records the message list the renderer is
about to see. -/

def appendUserQuery (st : EngineState) (q : List Nat) : EngineState :=
  let fq := computeFinalQuery st.disableThinking st.reasoningBudget q
  let msgs := st.messages ++ [{ role := userBytes, content := fq }]
  { st with messages := msgs, renderArg := msgs }

/-- The `n_past` starting position (lines 177-192): a continuation reuses
the cache after its maximum committed position; `max_seq_pos >= 0` guards
the `+ 1`. -/

def posBase (cacheMax : Int) : Int :=
  if 0 ≤ cacheMax then cacheMax + 1 else 0

/-- Validate the token count and stage the batch (lines 161-201): the
`INT32_MAX` guard is the `_promptTokens.size() > int32 max` check of line
165, and the two final branches are the `n_past` computation of lines
177-200 with consecutive positions `n_past + i`. -/

def stageTokens (toks : List Int) (st1 : EngineState) : EngineState × Except Err Unit :=
  if toks.length = 0 then (st1, Except.error Err.emptyPrompt)
  else if 2147483647 < toks.length then (st1, Except.error Err.promptTooLarge)
  else if st1.storeChats = true ∧ 0 < st1.prevLen then
    ({ st1 with
        batch := some
          { tokens := toks
            pos := (List.range toks.length).map (fun i : Nat => posBase st1.cacheMax + (i : Int)) } },
      Except.ok ())
  else
    ({ st1 with
        cacheMax := -1
        batch := some
          { tokens := toks
            pos := (List.range toks.length).map (fun i : Nat => (i : Int)) } },
      Except.ok ())

/-- Render, tokenize, validate and stage the batch (lines 144-201).  The
retry-after-resize of `llama_chat_apply_template` collapses because the
renderer is deterministic; a negative length on the retry is the `none`
case. -/

def stagePhase (o : Oracles) (st : EngineState) : EngineState × Except Err Unit :=
  match o.render st.messages true with
  | none => (st, Except.error Err.renderError)
  | some full =>
    stageTokens (o.tokenize (full.drop st.prevLen.toNat) (decide (st.prevLen = 0)))
      { st with addSpecialArg := decide (st.prevLen = 0) }

/-- Embedding of `LLMInference::startCompletion`. -/

def startCompletion (o : Oracles) (st : EngineState) (q : List Nat) :
    EngineState × Except Err Unit :=
  stagePhase o (appendUserQuery (clearTurnState (resetPhase st)) q)

/-- The token list `startCompletion` computes and validates, or `none`
when rendering fails. -/

def promptTokensOf (o : Oracles) (st : EngineState) (q : List Nat) :
    Option (List Int) :=
  match o.render (appendUserQuery (clearTurnState (resetPhase st)) q).messages true with
  | none => none
  | some full =>
    some (o.tokenize
      (full.drop (appendUserQuery (clearTurnState (resetPhase st)) q).prevLen.toNat)
      (decide ((appendUserQuery (clearTurnState (resetPhase st)) q).prevLen = 0)))

/-! ## completionLoop (`LLMInference.cpp` lines 240-301). -/

/-- Maximum over a position list, `-1` when empty: the value
`llama_memory_seq_pos_max` reports after those positions commit. -/

def maxPos : List Int → Int
  | [] => -1
  | p :: r => max p (maxPos r)

/-- Embedding of `LLMInference::completionLoop`. -/

def completionLoop (o : Oracles) (st : EngineState) :
    EngineState × Except Err StepOut :=
  match st.batch with
  | none => (st, Except.error Err.noActiveBatch)
  | some b =>
    if b.tokens.length = 0 then (st, Except.error Err.noActiveBatch)
    else
      let st1 := { st with nCtxUsed := st.cacheMax + 1 }
      if st1.nCtx < st.cacheMax + 1 + b.tokens.length then
        (st1, Except.error Err.contextExceeded)
      else
        let st2 := { st1 with decodeCount := st1.decodeCount + 1 }
        if o.decodeOk = false then (st2, Except.error Err.decodeFailed)
        else
          let st3 := { st2 with cacheMax := max st2.cacheMax (maxPos b.pos) }
          let tok := o.sample
          if o.isEog tok then
            let st4 :=
              if st3.storeChats then
                { st3 with
                  messages := st3.messages ++
                    [{ role := assistantBytes, content := st3.response }] }
              else st3
            ({ st4 with response := [], cacheResponseTokens := [] },
              Except.ok StepOut.eog)
          else
            let piece := o.pieceOf tok
            let st5 := { st3 with
              responseGenerationTime := st3.responseGenerationTime + o.timeDelta
              responseNumTokens := st3.responseNumTokens + 1
              cacheResponseTokens := st3.cacheResponseTokens ++ piece }
            let st6 := { st5 with
              batch := some { tokens := [tok], pos := [st5.cacheMax + 1] } }
            if isValidUtf8 st6.cacheResponseTokens then
              ({ st6 with
                  response := st6.response ++ st6.cacheResponseTokens
                  cacheResponseTokens := [] },
                Except.ok (StepOut.frag st6.cacheResponseTokens))
            else (st6, Except.ok (StepOut.frag []))

/-! ## stopCompletion and the metric accessors. -/

/-- Embedding of `LLMInference::stopCompletion` (lines 303-315).  On a
negative render length the C++ code stores that negative value in
`_prevLen` before throwing; the unknown negative value is modelled as
`-1`. -/

def stopCompletion (o : Oracles) (st : EngineState) :
    EngineState × Except Err Unit :=
  if st.storeChats then
    match o.render st.messages false with
    | none => ({ st with prevLen := -1 }, Except.error Err.renderError)
    | some full =>
      ({ st with
          prevLen := (full.length : Int)
          response := []
          cacheResponseTokens := [] }, Except.ok ())
  else
    ({ st with prevLen := 0, response := [], cacheResponseTokens := [] },
      Except.ok ())

/-- `LLMInference::getResponseTokensPerSecond` (lines 92-98).  The C++
`float` arithmetic is modelled exactly over `ℚ`; both quantities the
claims evaluate are exactly representable. -/

def getResponseTokensPerSecond (st : EngineState) : ℚ :=
  if st.responseGenerationTime ≤ 0 ∨ st.responseNumTokens ≤ 0 then 0
  else ((st.responseNumTokens : ℚ) * 1000000) / (st.responseGenerationTime : ℚ)

/-- `LLMInference::getResponseGenerationTime` (lines 87-90): its body is
`return getResponseTokensPerSecond();`. -/

def getResponseGenerationTime (st : EngineState) : ℚ :=
  getResponseTokensPerSecond st

/-- JNI accessor `Java_io_aatricks_llmedge_SmolLM_getResponseGenerationSpeed`
(`smollm.cpp` lines 46-50): returns `llmInference->getResponseGenerationTime()`. -/

def getResponseGenerationSpeed (st : EngineState) : ℚ :=
  getResponseGenerationTime st

/-- Backend stand-in for the overflow scenario: the renderer yields a
fixed string and the tokenizer returns nine tokens. -/

def oNine : Oracles :=
  { render := fun _ _ => some (strBytes "abcdef")
    tokenize := fun _ _ => [1, 2, 3, 4, 5, 6, 7, 8, 9]
    decodeOk := true
    sample := 0
    isEog := fun _ => false
    pieceOf := fun _ => []
    timeDelta := 0 }

/-- Concrete metric state for the C9 examples. -/

def metricsState (t tok : Int) : EngineState :=
  { loadState 8 true with responseGenerationTime := t, responseNumTokens := tok }

/-- A continuation state: persistence on, `prevLen > 0`, committed cache. -/

def stCont : EngineState :=
  { loadState 100 true with prevLen := 3, cacheMax := 4 }

theorem utf8Scan_nil (p : Nat) : utf8Scan p [] = (p == 0) := by
  simp [utf8Scan]

theorem utf8Scan_zero_cons (b : Nat) (rest : List Nat) :
    utf8Scan 0 (b :: rest) =
      (if b == 0 then true
       else if b &&& 0x80 == 0 then utf8Scan 0 rest
       else if b &&& 0xE0 == 0xC0 then utf8Scan 1 rest
       else if b &&& 0xF0 == 0xE0 then utf8Scan 2 rest
       else if b &&& 0xF8 == 0xF0 then utf8Scan 3 rest
       else false) := by
  simp [utf8Scan]

theorem utf8Scan_succ_cons (p b : Nat) (rest : List Nat) :
    utf8Scan (p + 1) (b :: rest) = (contByte b && utf8Scan p rest) := by
  simp [utf8Scan]

theorem isValidUtf8_of_validSeq {l : List Nat} (h : ValidSeq l) :
    isValidUtf8 l = true := by
  induction h with
  | nil => rfl
  | nulStop =>
      unfold isValidUtf8
      rw [utf8Scan_zero_cons]
      simp
  | one hz h1 _ ih =>
      unfold isValidUtf8 at ih ⊢
      rw [utf8Scan_zero_cons, if_neg (by simp [hz]), if_pos (by simpa using h1)]
      exact ih
  | two hz h1 h2 hc1 _ ih =>
      unfold isValidUtf8 at ih ⊢
      rw [utf8Scan_zero_cons, if_neg (by simp [hz]), if_neg (by simp [h1]),
        if_pos (by simpa using h2), utf8Scan_succ_cons]
      simp [hc1, ih]
  | three hz h1 h2 h3 hc1 hc2 _ ih =>
      unfold isValidUtf8 at ih ⊢
      rw [utf8Scan_zero_cons, if_neg (by simp [hz]), if_neg (by simp [h1]),
        if_neg (by simp [h2]),
        if_pos (by simpa using h3), utf8Scan_succ_cons, utf8Scan_succ_cons]
      simp [hc1, hc2, ih]
  | four hz h1 h2 h3 h4 hc1 hc2 hc3 _ ih =>
      unfold isValidUtf8 at ih ⊢
      rw [utf8Scan_zero_cons, if_neg (by simp [hz]), if_neg (by simp [h1]),
        if_neg (by simp [h2]),
        if_neg (by simp [h3]), if_pos (by simpa using h4),
        utf8Scan_succ_cons, utf8Scan_succ_cons, utf8Scan_succ_cons]
      simp [hc1, hc2, hc3, ih]

theorem validSeq_of_isValidUtf8_aux :
    ∀ (n : Nat) (l : List Nat), l.length ≤ n → isValidUtf8 l = true → ValidSeq l := by
  intro n
  induction n with
  | zero =>
      intro l hl _
      have hnil : l = [] := List.length_eq_zero.mp (Nat.le_zero.mp hl)
      subst hnil
      exact ValidSeq.nil
  | succ n ih =>
      intro l hl h
      match l with
      | [] => exact ValidSeq.nil
      | b :: rest =>
        unfold isValidUtf8 at h
        rw [utf8Scan_zero_cons] at h
        by_cases hz : (b == 0) = true
        · have hb : b = 0 := by simpa using hz
          subst hb
          exact ValidSeq.nulStop
        · have hzf : (b == 0) = false := Bool.eq_false_iff.mpr hz
          rw [if_neg (by simp [hzf])] at h
          by_cases h1 : (b &&& 0x80 == 0) = true
          · rw [if_pos (by simpa using h1)] at h
            have hlen : rest.length ≤ n := by
              simp only [List.length_cons] at hl; omega
            exact ValidSeq.one hzf h1 (ih rest hlen h)
          · have h1f : (b &&& 0x80 == 0) = false := Bool.eq_false_iff.mpr h1
            rw [if_neg (by simp [h1f])] at h
            by_cases h2 : (b &&& 0xE0 == 0xC0) = true
            · rw [if_pos (by simpa using h2)] at h
              match rest with
              | [] => rw [utf8Scan_nil] at h; simp at h
              | c1 :: r =>
                rw [utf8Scan_succ_cons] at h
                have hc1 : contByte c1 = true := ((Bool.and_eq_true _ _).mp h).1
                have hr : utf8Scan 0 r = true := ((Bool.and_eq_true _ _).mp h).2
                have hlen : r.length ≤ n := by
                  simp only [List.length_cons] at hl; omega
                exact ValidSeq.two hzf h1f h2 hc1 (ih r hlen hr)
            · have h2f : (b &&& 0xE0 == 0xC0) = false := Bool.eq_false_iff.mpr h2
              rw [if_neg (by simp [h2f])] at h
              by_cases h3 : (b &&& 0xF0 == 0xE0) = true
              · rw [if_pos (by simpa using h3)] at h
                match rest with
                | [] => rw [utf8Scan_nil] at h; simp at h
                | [c1] =>
                  rw [utf8Scan_succ_cons, utf8Scan_nil] at h; simp at h
                | c1 :: c2 :: r =>
                  rw [utf8Scan_succ_cons, utf8Scan_succ_cons] at h
                  have hc1 : contByte c1 = true := ((Bool.and_eq_true _ _).mp h).1
                  have h' := ((Bool.and_eq_true _ _).mp h).2
                  have hc2 : contByte c2 = true := ((Bool.and_eq_true _ _).mp h').1
                  have hr : utf8Scan 0 r = true := ((Bool.and_eq_true _ _).mp h').2
                  have hlen : r.length ≤ n := by
                    simp only [List.length_cons] at hl; omega
                  exact ValidSeq.three hzf h1f h2f h3 hc1 hc2 (ih r hlen hr)
              · have h3f : (b &&& 0xF0 == 0xE0) = false := Bool.eq_false_iff.mpr h3
                rw [if_neg (by simp [h3f])] at h
                by_cases h4 : (b &&& 0xF8 == 0xF0) = true
                · rw [if_pos (by simpa using h4)] at h
                  match rest with
                  | [] => rw [utf8Scan_nil] at h; simp at h
                  | [c1] =>
                    rw [utf8Scan_succ_cons, utf8Scan_nil] at h; simp at h
                  | [c1, c2] =>
                    rw [utf8Scan_succ_cons, utf8Scan_succ_cons, utf8Scan_nil] at h
                    simp at h
                  | c1 :: c2 :: c3 :: r =>
                    rw [utf8Scan_succ_cons, utf8Scan_succ_cons, utf8Scan_succ_cons] at h
                    have hc1 : contByte c1 = true := ((Bool.and_eq_true _ _).mp h).1
                    have h' := ((Bool.and_eq_true _ _).mp h).2
                    have hc2 : contByte c2 = true := ((Bool.and_eq_true _ _).mp h').1
                    have h'' := ((Bool.and_eq_true _ _).mp h').2
                    have hc3 : contByte c3 = true := ((Bool.and_eq_true _ _).mp h'').1
                    have hr : utf8Scan 0 r = true := ((Bool.and_eq_true _ _).mp h'').2
                    have hlen : r.length ≤ n := by
                      simp only [List.length_cons] at hl; omega
                    exact ValidSeq.four hzf h1f h2f h3f h4 hc1 hc2 hc3 (ih r hlen hr)
                · have h4f : (b &&& 0xF8 == 0xF0) = false := Bool.eq_false_iff.mpr h4
                  rw [if_neg (by simp [h4f])] at h
                  exact absurd h (by simp)

theorem validSeq_iff (l : List Nat) : isValidUtf8 l = true ↔ ValidSeq l :=
  ⟨validSeq_of_isValidUtf8_aux l.length l (Nat.le_refl _), isValidUtf8_of_validSeq⟩

theorem validSeq_append {p q : List Nat} (hp : ValidSeq p) (hq : ValidSeq q) :
    ValidSeq (p ++ q) := by
  induction hp with
  | nil => simpa using hq
  | nulStop => exact ValidSeq.nulStop
  | one hz h1 _ ih => exact ValidSeq.one hz h1 ih
  | two hz h1 h2 hc1 _ ih => exact ValidSeq.two hz h1 h2 hc1 ih
  | three hz h1 h2 h3 hc1 hc2 _ ih => exact ValidSeq.three hz h1 h2 h3 hc1 hc2 ih
  | four hz h1 h2 h3 h4 hc1 hc2 hc3 _ ih =>
      exact ValidSeq.four hz h1 h2 h3 h4 hc1 hc2 hc3 ih

theorem isValidUtf8_append {p q : List Nat} (hp : isValidUtf8 p = true)
    (hq : isValidUtf8 q = true) : isValidUtf8 (p ++ q) = true :=
  isValidUtf8_of_validSeq (validSeq_append ((validSeq_iff p).mp hp) ((validSeq_iff q).mp hq))

/-- A NUL-free valid left part cancels: if `p` has no `0x00` byte, `p` is
accepted and `p ++ q` is accepted, then `q` is accepted.  (Without the
NUL-freeness this fails: the scan stops at a NUL in `p` and never reads
`q`.) -/

theorem isValidUtf8_cancel_left {p q : List Nat} (hnul : ∀ b ∈ p, b ≠ 0)
    (hp : ValidSeq p) (hpq : isValidUtf8 (p ++ q) = true) : isValidUtf8 q = true := by
  induction hp with
  | nil => simpa using hpq
  | nulStop =>
      exact absurd rfl (hnul 0 (List.mem_cons_self _ _))
  | one hz h1 _ ih =>
      unfold isValidUtf8 at hpq
      rw [List.cons_append, utf8Scan_zero_cons, if_neg (by simp [hz]),
        if_pos (by simpa using h1)] at hpq
      exact ih (fun b hb => hnul b (List.mem_cons_of_mem _ hb)) hpq
  | two hz h1 h2 hc1 _ ih =>
      unfold isValidUtf8 at hpq
      rw [List.cons_append, List.cons_append, utf8Scan_zero_cons,
        if_neg (by simp [hz]),
        if_neg (by simp [h1]), if_pos (by simpa using h2), utf8Scan_succ_cons] at hpq
      exact ih (fun b hb => hnul b (List.mem_cons_of_mem _ (List.mem_cons_of_mem _ hb)))
        ((Bool.and_eq_true _ _).mp hpq).2
  | three hz h1 h2 h3 hc1 hc2 _ ih =>
      unfold isValidUtf8 at hpq
      rw [List.cons_append, List.cons_append, List.cons_append, utf8Scan_zero_cons,
        if_neg (by simp [hz]),
        if_neg (by simp [h1]), if_neg (by simp [h2]), if_pos (by simpa using h3),
        utf8Scan_succ_cons, utf8Scan_succ_cons] at hpq
      exact ih (fun b hb => hnul b (List.mem_cons_of_mem _
          (List.mem_cons_of_mem _ (List.mem_cons_of_mem _ hb))))
        ((Bool.and_eq_true _ _).mp ((Bool.and_eq_true _ _).mp hpq).2).2
  | four hz h1 h2 h3 h4 hc1 hc2 hc3 _ ih =>
      unfold isValidUtf8 at hpq
      rw [List.cons_append, List.cons_append, List.cons_append, List.cons_append,
        utf8Scan_zero_cons, if_neg (by simp [hz]), if_neg (by simp [h1]),
        if_neg (by simp [h2]),
        if_neg (by simp [h3]), if_pos (by simpa using h4),
        utf8Scan_succ_cons, utf8Scan_succ_cons, utf8Scan_succ_cons] at hpq
      exact ih (fun b hb => hnul b (List.mem_cons_of_mem _ (List.mem_cons_of_mem _
          (List.mem_cons_of_mem _ (List.mem_cons_of_mem _ hb)))))
        ((Bool.and_eq_true _ _).mp
          ((Bool.and_eq_true _ _).mp ((Bool.and_eq_true _ _).mp hpq).2).2).2

theorem pushChunks_spec (chunks : List (List Nat)) : ∀ buf : List Nat,
    (pushChunks buf chunks).1 ++ (pushChunks buf chunks).2 = buf ++ chunks.flatten
    ∧ isValidUtf8 (pushChunks buf chunks).1 = true
    ∧ (chunks ≠ [] →
        (pushChunks buf chunks).2 = [] ∨ isValidUtf8 (pushChunks buf chunks).2 = false) := by
  induction chunks with
  | nil => intro buf; refine ⟨by simp [pushChunks], rfl, by simp⟩
  | cons f rest ih =>
      intro buf
      by_cases hv : isValidUtf8 (buf ++ f) = true
      · have hpush : pushOne buf f = (buf ++ f, []) := by
          simp [pushOne, hv]
        obtain ⟨ih1, ih2, ih3⟩ := ih []
        refine ⟨?_, ?_, ?_⟩
        · simp only [pushChunks, hpush]
          calc (buf ++ f ++ (pushChunks [] rest).1) ++ (pushChunks [] rest).2
              = buf ++ f ++ ((pushChunks [] rest).1 ++ (pushChunks [] rest).2) := by
                simp [List.append_assoc]
            _ = buf ++ (f :: rest).flatten := by rw [ih1]; simp [List.append_assoc]
        · simp only [pushChunks, hpush]
          exact isValidUtf8_append hv ih2
        · intro _
          simp only [pushChunks, hpush]
          rcases rest with _ | ⟨g, rest⟩
          · left; simp [pushChunks]
          · exact ih3 (by simp)
      · have hvf : isValidUtf8 (buf ++ f) = false := Bool.eq_false_iff.mpr hv
        have hpush : pushOne buf f = ([], buf ++ f) := by
          simp [pushOne, hvf]
        obtain ⟨ih1, ih2, ih3⟩ := ih (buf ++ f)
        refine ⟨?_, ?_, ?_⟩
        · simp only [pushChunks, hpush]
          calc [] ++ (pushChunks (buf ++ f) rest).1 ++ (pushChunks (buf ++ f) rest).2
              = (pushChunks (buf ++ f) rest).1 ++ (pushChunks (buf ++ f) rest).2 := by simp
            _ = buf ++ f ++ rest.flatten := ih1
            _ = buf ++ (f :: rest).flatten := by simp [List.append_assoc]
        · simp only [pushChunks, hpush]
          simpa using ih2
        · intro _
          simp only [pushChunks, hpush]
          rcases rest with _ | ⟨g, rest⟩
          · right; simpa [pushChunks] using hvf
          · exact ih3 (by simp)

/-! ## Supporting lemmas about the staged phases. -/

theorem eraseNonSystem_eq_filter (l : List Msg) :
    eraseNonSystem l = l.filter (fun m => m.role == sysBytes) := by
  induction l with
  | nil => rfl
  | cons m rest ih =>
      by_cases h : (m.role == sysBytes) = true
      · simp [eraseNonSystem, h, ih]
      · simp [eraseNonSystem, Bool.eq_false_iff.mpr h, ih]

theorem eraseNonSystem_sublist (l : List Msg) :
    List.Sublist (eraseNonSystem l) l := by
  rw [eraseNonSystem_eq_filter]
  exact List.filter_sublist l

/-- `stageTokens` never touches the message list, the rendered-baseline
length, the persistence flag or the ghost fields. -/

theorem stageTokens_preserves (toks : List Int) (s : EngineState) :
    ((stageTokens toks s).1).renderArg = s.renderArg
    ∧ ((stageTokens toks s).1).prevLen = s.prevLen
    ∧ ((stageTokens toks s).1).messages = s.messages
    ∧ ((stageTokens toks s).1).storeChats = s.storeChats
    ∧ ((stageTokens toks s).1).addSpecialArg = s.addSpecialArg := by
  unfold stageTokens
  split
  · exact ⟨rfl, rfl, rfl, rfl, rfl⟩
  · split
    · exact ⟨rfl, rfl, rfl, rfl, rfl⟩
    · split
      · exact ⟨rfl, rfl, rfl, rfl, rfl⟩
      · exact ⟨rfl, rfl, rfl, rfl, rfl⟩

/-- `stagePhase` never touches the message list, the rendered-baseline
length or the ghost renderer argument. -/

theorem stagePhase_preserves (o : Oracles) (st : EngineState) :
    ((stagePhase o st).1).renderArg = st.renderArg
    ∧ ((stagePhase o st).1).prevLen = st.prevLen
    ∧ ((stagePhase o st).1).messages = st.messages
    ∧ ((stagePhase o st).1).storeChats = st.storeChats := by
  unfold stagePhase
  rcases o.render st.messages true with _ | full
  · exact ⟨rfl, rfl, rfl, rfl⟩
  · obtain ⟨a, b, c, d, _⟩ := stageTokens_preserves
      (o.tokenize (full.drop st.prevLen.toNat) (decide (st.prevLen = 0)))
      { st with addSpecialArg := decide (st.prevLen = 0) }
    exact ⟨a, b, c, d⟩

theorem stageTokens_empty {toks : List Int} (s : EngineState)
    (h : toks.length = 0) :
    stageTokens toks s = (s, Except.error Err.emptyPrompt) := by
  unfold stageTokens; rw [if_pos h]

theorem stageTokens_large {toks : List Int} (s : EngineState)
    (h0 : toks.length ≠ 0) (h1 : 2147483647 < toks.length) :
    stageTokens toks s = (s, Except.error Err.promptTooLarge) := by
  unfold stageTokens; rw [if_neg h0, if_pos h1]

theorem stageTokens_cont {toks : List Int} (s : EngineState)
    (h0 : toks.length ≠ 0) (h1 : ¬ 2147483647 < toks.length)
    (h2 : s.storeChats = true) (h3 : 0 < s.prevLen) :
    stageTokens toks s =
      ({ s with
          batch := some
            { tokens := toks
              pos := (List.range toks.length).map (fun i : Nat => posBase s.cacheMax + (i : Int)) } },
        Except.ok ()) := by
  unfold stageTokens; rw [if_neg h0, if_neg h1, if_pos ⟨h2, h3⟩]

theorem stageTokens_fresh {toks : List Int} (s : EngineState)
    (h0 : toks.length ≠ 0) (h1 : ¬ 2147483647 < toks.length)
    (h2 : ¬(s.storeChats = true ∧ 0 < s.prevLen)) :
    stageTokens toks s =
      ({ s with
          cacheMax := -1
          batch := some
            { tokens := toks
              pos := (List.range toks.length).map (fun i : Nat => (i : Int)) } },
        Except.ok ()) := by
  unfold stageTokens; rw [if_neg h0, if_neg h1, if_neg h2]

theorem stagePhase_none (o : Oracles) (st : EngineState)
    (h : o.render st.messages true = none) :
    stagePhase o st = (st, Except.error Err.renderError) := by
  unfold stagePhase; rw [h]

theorem stagePhase_some (o : Oracles) (st : EngineState) (full : List Nat)
    (h : o.render st.messages true = some full) :
    stagePhase o st =
      stageTokens (o.tokenize (full.drop st.prevLen.toNat) (decide (st.prevLen = 0)))
        { st with addSpecialArg := decide (st.prevLen = 0) } := by
  unfold stagePhase; rw [h]

/-- Field bookkeeping for the preparation phases of `startCompletion`. -/

theorem prepPhase_fields (st : EngineState) (q : List Nat) :
    (appendUserQuery (clearTurnState (resetPhase st)) q).prevLen
        = (if st.storeChats then st.prevLen else 0)
    ∧ (appendUserQuery (clearTurnState (resetPhase st)) q).cacheMax = st.cacheMax
    ∧ (appendUserQuery (clearTurnState (resetPhase st)) q).storeChats = st.storeChats
    ∧ (appendUserQuery (clearTurnState (resetPhase st)) q).messages =
        (if st.storeChats then st.messages else eraseNonSystem st.messages) ++
          [{ role := userBytes,
             content := computeFinalQuery st.disableThinking st.reasoningBudget q }]
    ∧ (appendUserQuery (clearTurnState (resetPhase st)) q).renderArg =
        (if st.storeChats then st.messages else eraseNonSystem st.messages) ++
          [{ role := userBytes,
             content := computeFinalQuery st.disableThinking st.reasoningBudget q }] := by
  unfold appendUserQuery clearTurnState resetPhase
  by_cases h : st.storeChats = true
  · simp [h]
  · simp [Bool.eq_false_iff.mpr h]

theorem posBase_eq {c : Int} (h : -1 ≤ c) : posBase c = c + 1 := by
  unfold posBase
  by_cases h0 : 0 ≤ c
  · rw [if_pos h0]
  · rw [if_neg h0]; omega

/-! ## Claim theorems. -/

/-- Counterexample to claim C2 as stated: `[0x00, 0xE2, 0x82, 0xAC]` is a
valid UTF-8 string (`0x00` encodes U+0000, `E2 82 AC` encodes U+20AC), and
the code's validator accepts it, because `_isValidUtf8` stops at the first
NUL byte.  Splitting it as `[0x00, 0xE2]` then `[0x82, 0xAC]`, the first
push is accepted at the NUL and emits the incomplete sequence
`00 E2` (cutting the Euro sign in half), the second push emits nothing,
and the concatenated emissions do not reproduce the original string. -/

theorem utf8_buffer_roundtrip_counterexample :
    isValidUtf8 [0x00, 0xE2, 0x82, 0xAC] = true
    ∧ ([[0x00, 0xE2], [0x82, 0xAC]] : List (List Nat)).flatten = [0x00, 0xE2, 0x82, 0xAC]
    ∧ (pushOne [] [0x00, 0xE2]).1 = [0x00, 0xE2]
    ∧ (pushChunks [] [[0x00, 0xE2], [0x82, 0xAC]]).1 = [0x00, 0xE2]
    ∧ (pushChunks [] [[0x00, 0xE2], [0x82, 0xAC]]).1 ≠ [0x00, 0xE2, 0x82, 0xAC] :=
  ⟨by decide, by decide, by decide, by decide, by decide⟩

/-- Claim C2 as amended (the validator stops at the first NUL byte, so the
round trip is restricted to strings without one): pushing any chunking of
a NUL-free byte string that the validator accepts through the boundary
buffer reproduces exactly that string in concatenation, ends with an empty
buffer, and each individual push emits nothing unless the accumulated
bytes are accepted by the validator, in which case the whole accumulation
is emitted and the buffer cleared. -/

theorem utf8_buffer_roundtrip (s : List Nat) (chunks : List (List Nat))
    (hjoin : chunks.flatten = s) (hnul : ∀ b ∈ s, b ≠ 0)
    (hv : isValidUtf8 s = true) :
    (pushChunks [] chunks).1 = s ∧ (pushChunks [] chunks).2 = []
    ∧ ∀ buf frag : List Nat,
        pushOne buf frag =
          if isValidUtf8 (buf ++ frag) = true then (buf ++ frag, ([] : List Nat))
          else ([], buf ++ frag) := by
  subst hjoin
  have hpush : ∀ buf frag : List Nat,
      pushOne buf frag =
        if isValidUtf8 (buf ++ frag) = true then (buf ++ frag, ([] : List Nat))
        else ([], buf ++ frag) := by
    intro buf frag
    by_cases h : isValidUtf8 (buf ++ frag) = true
    · simp [pushOne, h]
    · simp [pushOne, Bool.eq_false_iff.mpr h]
  obtain ⟨h1, h2, h3⟩ := pushChunks_spec chunks []
  rcases chunks with _ | ⟨f, rest⟩
  · exact ⟨rfl, rfl, hpush⟩
  · set chunks := f :: rest with hc
    have hne : chunks ≠ [] := by rw [hc]; simp
    have hnul1 : ∀ b ∈ (pushChunks [] chunks).1, b ≠ 0 := by
      intro b hb
      apply hnul
      have hmem : b ∈ (pushChunks [] chunks).1 ++ (pushChunks [] chunks).2 :=
        List.mem_append_left _ hb
      rw [h1] at hmem
      simpa using hmem
    have hbuf : (pushChunks [] chunks).2 = [] := by
      rcases h3 hne with hemp | hinv
      · exact hemp
      · exfalso
        have hvalid2 : isValidUtf8 (pushChunks [] chunks).2 = true := by
          have hv' : isValidUtf8 ((pushChunks [] chunks).1 ++ (pushChunks [] chunks).2) = true := by
            rw [h1]; simpa using hv
          exact isValidUtf8_cancel_left hnul1 ((validSeq_iff _).mp h2) hv'
        rw [hvalid2] at hinv
        exact Bool.true_eq_false.mp hinv
    refine ⟨?_, hbuf, hpush⟩
    have := h1
    rw [hbuf] at this
    simpa using this

/-- Witness for the amended C2: the Euro sign `E2 82 AC` (NUL-free) split
into two pushes emits nothing on the first push and the whole character on
the second. -/

theorem utf8_buffer_roundtrip_witness :
    ([[0xE2, 0x82], [0xAC]] : List (List Nat)).flatten = [0xE2, 0x82, 0xAC]
    ∧ (∀ b ∈ ([0xE2, 0x82, 0xAC] : List Nat), b ≠ 0)
    ∧ isValidUtf8 [0xE2, 0x82, 0xAC] = true
    ∧ (pushChunks [] [[0xE2, 0x82], [0xAC]]).1 = [0xE2, 0x82, 0xAC]
    ∧ (pushOne [] [0xE2, 0x82]).1 = [] :=
  ⟨by decide, by decide, by decide,
    (utf8_buffer_roundtrip [0xE2, 0x82, 0xAC] [[0xE2, 0x82], [0xAC]]
      (by decide) (by decide) (by decide)).1,
    by decide⟩

/-- Claim C3: with a staged non-empty batch, when the committed cache span
plus the staged token count exceeds the context window, `completionLoop`
fails with the context-exceeded error and performs no decode. -/

theorem step_context_overflow (o : Oracles) (st : EngineState) (b : Batch)
    (hb : st.batch = some b) (hne : 0 < b.tokens.length)
    (hover : st.nCtx < st.cacheMax + 1 + (b.tokens.length : Int)) :
    (completionLoop o st).2 = Except.error Err.contextExceeded
    ∧ (completionLoop o st).1.decodeCount = st.decodeCount := by
  unfold completionLoop
  rw [hb]
  dsimp only
  rw [if_neg (by omega), if_pos hover]
  exact ⟨rfl, rfl⟩

/-- Witness for C3: `contextSize = 8` and a 9-token prompt make the first
step after `startCompletion` raise the context-exceeded error. -/

theorem step_context_overflow_witness :
    (startCompletion oNine (loadState 8 true) []).1.batch =
      some { tokens := [1, 2, 3, 4, 5, 6, 7, 8, 9], pos := [0, 1, 2, 3, 4, 5, 6, 7, 8] }
    ∧ (0 : Nat) < (9 : Nat)
    ∧ (startCompletion oNine (loadState 8 true) []).1.nCtx <
        (startCompletion oNine (loadState 8 true) []).1.cacheMax + 1 + ((9 : Nat) : Int)
    ∧ (completionLoop oNine (startCompletion oNine (loadState 8 true) []).1).2 =
        Except.error Err.contextExceeded
    ∧ (completionLoop oNine (startCompletion oNine (loadState 8 true) []).1).1.decodeCount
        = (startCompletion oNine (loadState 8 true) []).1.decodeCount :=
  ⟨by decide, by decide, by decide,
    (step_context_overflow oNine (startCompletion oNine (loadState 8 true) []).1
      { tokens := [1, 2, 3, 4, 5, 6, 7, 8, 9], pos := [0, 1, 2, 3, 4, 5, 6, 7, 8] }
      (by decide) (by decide) (by decide)).1,
    (step_context_overflow oNine (startCompletion oNine (loadState 8 true) []).1
      { tokens := [1, 2, 3, 4, 5, 6, 7, 8, 9], pos := [0, 1, 2, 3, 4, 5, 6, 7, 8] }
      (by decide) (by decide) (by decide)).2⟩

/-- Claim C10: the public generation-time accessor, and the JNI
generation-speed accessor built on it, both return the tokens-per-second
rate. -/

theorem generation_time_is_speed (st : EngineState) :
    getResponseGenerationTime st = getResponseTokensPerSecond st
    ∧ getResponseGenerationSpeed st = getResponseTokensPerSecond st :=
  ⟨rfl, rfl⟩

/-- Claim C9: the tokens-per-second metric is
`tokens * 1_000_000 / elapsed_micros`, is `0` whenever either operand is
non-positive (never a division fault: the function is total), and maps
`(elapsed = 0, tokens = 5)` to `0` and `(elapsed = 1_000_000, tokens = 10)`
to `10`. -/

theorem tokens_per_second_semantics (st : EngineState) :
    (st.responseGenerationTime ≤ 0 ∨ st.responseNumTokens ≤ 0 →
        getResponseTokensPerSecond st = 0)
    ∧ (0 < st.responseGenerationTime → 0 < st.responseNumTokens →
        getResponseTokensPerSecond st
          = (st.responseNumTokens : ℚ) * 1000000 / (st.responseGenerationTime : ℚ))
    ∧ getResponseTokensPerSecond (metricsState 0 5) = 0
    ∧ getResponseTokensPerSecond (metricsState 1000000 10) = 10 := by
  refine ⟨fun h => ?_, fun h1 h2 => ?_, ?_, ?_⟩
  · rw [getResponseTokensPerSecond, if_pos h]
  · rw [getResponseTokensPerSecond, if_neg (by omega)]
  · rw [getResponseTokensPerSecond, if_pos (by left; simp [metricsState, loadState])]
  · rw [getResponseTokensPerSecond, if_neg (by simp [metricsState, loadState])]
    norm_num [metricsState, loadState]

/-- Witness for C9, at the two example points. -/

theorem tokens_per_second_semantics_witness :
    getResponseTokensPerSecond (metricsState 0 5) = 0
    ∧ getResponseTokensPerSecond (metricsState 1000000 10)
        = ((metricsState 1000000 10).responseNumTokens : ℚ) * 1000000
          / ((metricsState 1000000 10).responseGenerationTime : ℚ) :=
  ⟨(tokens_per_second_semantics (metricsState 0 5)).2.2.1,
   (tokens_per_second_semantics (metricsState 1000000 10)).2.1
     (by decide) (by decide)⟩

/-- Claim C7: with suppression active and the marker absent, the query is
rewritten to the marker alone (empty query) or the marker, a newline and
the query; and `setReasoningOptions` with budget `0` always switches
suppression on. -/

theorem nothink_policy (dt : Bool) (rb : Int) (q : List Nat) (st : EngineState)
    (hsup : dt = true ∨ rb = 0) (hmark : containsSub noThinkBytes q = false) :
    computeFinalQuery dt rb q
      = (if q = [] then noThinkBytes else noThinkBytes ++ 10 :: q)
    ∧ ∀ dt2 : Bool, (setReasoningOptions st dt2 0).disableThinking = true := by
  constructor
  · have hsup' : (dt || decide (rb = 0)) = true := by
      rcases hsup with h | h
      · simp [h]
      · simp [h]
    unfold computeFinalQuery
    have hcond : ((dt || decide (rb = 0)) && !containsSub noThinkBytes q) = true := by
      rw [hsup', hmark]; rfl
    rw [if_pos hcond]
    rcases q with _ | ⟨a, t⟩
    · simp
    · simp
  · intro dt2
    simp [setReasoningOptions]

/-- Witness for C7 at a concrete non-empty query. -/

theorem nothink_policy_witness :
    containsSub noThinkBytes (strBytes "hi") = false
    ∧ computeFinalQuery true (-1) (strBytes "hi")
        = (if strBytes "hi" = [] then noThinkBytes else noThinkBytes ++ 10 :: strBytes "hi")
    ∧ (setReasoningOptions (loadState 8 true) false 0).disableThinking = true :=
  ⟨by decide,
    (nothink_policy true (-1) (strBytes "hi") (loadState 8 true)
      (Or.inl rfl) (by decide)).1,
    (nothink_policy true (-1) (strBytes "hi") (loadState 8 true)
      (Or.inl rfl) (by decide)).2 false⟩

/-- Claim C1: when history persistence is disabled, `startCompletion`
first drops every non-`system` turn (keeping the surviving system turns in
their relative order) and resets `prevLen` to 0, so the renderer sees only
the surviving system turns plus the freshly appended user turn. -/

theorem reset_nonsystem_invisible (o : Oracles) (st : EngineState) (q : List Nat)
    (hstore : st.storeChats = false) :
    ((startCompletion o st q).1).renderArg =
      eraseNonSystem st.messages ++
        [{ role := userBytes,
           content := computeFinalQuery st.disableThinking st.reasoningBudget q }]
    ∧ eraseNonSystem st.messages = st.messages.filter (fun m => m.role == sysBytes)
    ∧ List.Sublist (eraseNonSystem st.messages) st.messages
    ∧ (∀ m ∈ ((startCompletion o st q).1).renderArg,
        m.role = sysBytes ∨
          m = { role := userBytes,
                content := computeFinalQuery st.disableThinking st.reasoningBudget q })
    ∧ ((startCompletion o st q).1).prevLen = 0 := by
  obtain ⟨hra, hpl, _, _⟩ :=
    stagePhase_preserves o (appendUserQuery (clearTurnState (resetPhase st)) q)
  obtain ⟨p1, _, _, _, p5⟩ := prepPhase_fields st q
  rw [hstore] at p1 p5
  simp only [Bool.false_eq_true, if_false] at p1 p5
  unfold startCompletion
  rw [hra, hpl, p1, p5]
  refine ⟨rfl, eraseNonSystem_eq_filter st.messages, eraseNonSystem_sublist st.messages,
    ?_, rfl⟩
  intro m hm
  rcases List.mem_append.mp hm with hin | hin
  · left
    rw [eraseNonSystem_eq_filter] at hin
    have := (List.mem_filter.mp hin).2
    exact eq_of_beq this
  · right
    simpa using hin

/-- Witness for C1: one system turn and one user turn; only the system
turn survives into the renderer argument. -/

theorem reset_nonsystem_invisible_witness :
    (addChatMessage (addChatMessage (loadState 8 false) (strBytes "a") sysBytes)
        (strBytes "b") userBytes).storeChats = false
    ∧ ((startCompletion oNine
          (addChatMessage (addChatMessage (loadState 8 false) (strBytes "a") sysBytes)
            (strBytes "b") userBytes) []).1).renderArg =
        eraseNonSystem (addChatMessage (addChatMessage (loadState 8 false)
            (strBytes "a") sysBytes) (strBytes "b") userBytes).messages ++
          [{ role := userBytes, content := computeFinalQuery false (-1) [] }] :=
  ⟨by decide,
    (reset_nonsystem_invisible oNine
      (addChatMessage (addChatMessage (loadState 8 false) (strBytes "a") sysBytes)
        (strBytes "b") userBytes) [] (by decide)).1⟩

/-- Claim C4 (with the backend invariant that `llama_memory_seq_pos_max`
reports at least `-1`): on a successful `startCompletion`, a continuation
with persistence enabled stages the prompt at consecutive positions
starting from the maximum committed position plus one and leaves the cache
alone, while every other call invalidates the whole cache range (observed
max back to `-1`) and stages the prompt at positions `0, 1, ...`. -/

theorem npast_positions (o : Oracles) (st : EngineState) (q : List Nat)
    (hcache : -1 ≤ st.cacheMax)
    (hok : (startCompletion o st q).2 = Except.ok ()) :
    ∃ bt : Batch, (startCompletion o st q).1.batch = some bt
      ∧ (st.storeChats = true → 0 < st.prevLen →
          bt.pos = (List.range bt.tokens.length).map (fun i : Nat => st.cacheMax + 1 + (i : Int))
          ∧ (startCompletion o st q).1.cacheMax = st.cacheMax)
      ∧ (st.storeChats = false ∨ st.prevLen ≤ 0 →
          bt.pos = (List.range bt.tokens.length).map (fun i : Nat => (i : Int))
          ∧ (startCompletion o st q).1.cacheMax = -1) := by
  obtain ⟨p1, p2, p3, _, _⟩ := prepPhase_fields st q
  set s := appendUserQuery (clearTurnState (resetPhase st)) q with hs
  have hdef : startCompletion o st q = stagePhase o s := rfl
  rcases hr : o.render s.messages true with _ | full
  · rw [hdef, stagePhase_none o s hr] at hok
    simp at hok
  · rw [hdef, stagePhase_some o s full hr] at hok ⊢
    set s1 : EngineState := { s with addSpecialArg := decide (s.prevLen = 0) } with hs1
    set toks := o.tokenize (full.drop s.prevLen.toNat) (decide (s.prevLen = 0)) with htk
    have hs1sc : s1.storeChats = st.storeChats := p3
    have hs1pl : s1.prevLen = (if st.storeChats = true then st.prevLen else 0) := p1
    have hs1cm : s1.cacheMax = st.cacheMax := p2
    by_cases h0 : toks.length = 0
    · rw [stageTokens_empty s1 h0] at hok
      simp at hok
    · by_cases h1 : 2147483647 < toks.length
      · rw [stageTokens_large s1 h0 h1] at hok
        simp at hok
      · by_cases hcont : st.storeChats = true ∧ 0 < st.prevLen
        · have hc2a : s1.storeChats = true := by rw [hs1sc]; exact hcont.1
          have hc2b : 0 < s1.prevLen := by
            rw [hs1pl, if_pos hcont.1]; exact hcont.2
          rw [stageTokens_cont s1 h0 h1 hc2a hc2b]
          refine ⟨_, rfl, ?_, ?_⟩
          · intro _ _
            constructor
            · simp only [hs1cm, p2, posBase_eq hcache]
            · exact hs1cm
          · intro hfresh
            exfalso
            rcases hfresh with h | h
            · rw [hcont.1] at h
              exact Bool.true_eq_false.mp h
            · have := hcont.2; omega
        · have hc2 : ¬(s1.storeChats = true ∧ 0 < s1.prevLen) := by
            rintro ⟨ha, hb⟩
            have hsc : st.storeChats = true := by rw [← hs1sc]; exact ha
            rw [hs1pl, if_pos hsc] at hb
            exact hcont ⟨hsc, hb⟩
          rw [stageTokens_fresh s1 h0 h1 hc2]
          refine ⟨_, rfl, ?_, fun _ => ⟨rfl, rfl⟩⟩
          intro ha hb
          exact absurd ⟨ha, hb⟩ hcont

/-- Witness for C4 in the continuation case. -/

theorem npast_positions_witness :
    ∃ bt : Batch, (startCompletion oNine stCont []).1.batch = some bt
      ∧ (stCont.storeChats = true → 0 < stCont.prevLen →
          bt.pos = (List.range bt.tokens.length).map (fun i : Nat => stCont.cacheMax + 1 + (i : Int))
          ∧ (startCompletion oNine stCont []).1.cacheMax = stCont.cacheMax)
      ∧ (stCont.storeChats = false ∨ stCont.prevLen ≤ 0 →
          bt.pos = (List.range bt.tokens.length).map (fun i : Nat => (i : Int))
          ∧ (startCompletion oNine stCont []).1.cacheMax = -1) :=
  npast_positions oNine stCont [] (by decide) (by decide)

/-- Counterexample to claim C5 as stated: with `contextSize = 8` the batch
width derived at load is `8`, the prompt tokenizes to `9 > 8` tokens, yet
`startCompletion` succeeds instead of failing with the prompt-too-large
error — the code's threshold is `INT32_MAX`, not the batch width. -/

theorem prompt_size_uses_int32_not_batch_width :
    (loadState 8 true).nBatch = 8
    ∧ (oNine.tokenize (strBytes "abcdef") true).length = 9
    ∧ (loadState 8 true).nBatch < 9
    ∧ (startCompletion oNine (loadState 8 true) []).2 = Except.ok () :=
  ⟨by decide, by decide, by decide, by decide⟩

/-- Claim C5 as amended: a zero-token suffix fails with the empty-prompt
error; a token count above `2147483647` (the largest count representable
in the batch's 32-bit signed token-count field) fails with the
prompt-too-large error; the batch width derived at load is
`min(contextSize, 512)` but is not the threshold of this check. -/

theorem prompt_validation_amended (o : Oracles) (st : EngineState) (q : List Nat)
    (toks : List Int) (htoks : promptTokensOf o st q = some toks) :
    ((startCompletion o st q).2 = Except.error Err.emptyPrompt ↔ toks.length = 0)
    ∧ (toks.length ≠ 0 →
        ((startCompletion o st q).2 = Except.error Err.promptTooLarge
          ↔ 2147483647 < toks.length))
    ∧ (∀ c : Int, 1 ≤ c → c ≤ 2147483647 → ∀ b : Bool,
        (loadState c b).nBatch = min c 512) := by
  unfold promptTokensOf at htoks
  set s := appendUserQuery (clearTurnState (resetPhase st)) q with hs
  have hdef : startCompletion o st q = stagePhase o s := rfl
  refine ⟨?_, ?_, ?_⟩
  case refine_3 =>
    intro c h1c h2c b
    have hsafe : max 1 (min c 4294967295) = c := by omega
    have ht : toInt32 c = c := by
      unfold toInt32
      have hm : c % 4294967296 = c := Int.emod_eq_of_lt (by omega) (by omega)
      simp only [hm]
      rw [if_neg (by omega)]
    show min (toInt32 (max 1 (min c 4294967295))) 512 = min c 512
    rw [hsafe, ht]
  all_goals
    rcases hr : o.render s.messages true with _ | full
  case refine_1.none =>
    rw [hr] at htoks
    simp at htoks
  case refine_2.none =>
    rw [hr] at htoks
    simp at htoks
  all_goals
    rw [hr] at htoks
  all_goals
    have htk : o.tokenize (full.drop s.prevLen.toNat) (decide (s.prevLen = 0)) = toks := by
      simpa using htoks
  all_goals
    have hmain : startCompletion o st q =
        stageTokens toks { s with addSpecialArg := decide (s.prevLen = 0) } := by
      rw [hdef, stagePhase_some o s full hr, htk]
  case refine_1.some =>
    rw [hmain]
    by_cases h0 : toks.length = 0
    · rw [stageTokens_empty _ h0]
      simp [h0]
    · by_cases h1 : 2147483647 < toks.length
      · rw [stageTokens_large _ h0 h1]
        simp [h0]
      · by_cases hcont : ({ s with addSpecialArg := decide (s.prevLen = 0) } : EngineState).storeChats = true
            ∧ 0 < ({ s with addSpecialArg := decide (s.prevLen = 0) } : EngineState).prevLen
        · rw [stageTokens_cont _ h0 h1 hcont.1 hcont.2]
          simp [h0]
        · rw [stageTokens_fresh _ h0 h1 hcont]
          simp [h0]
  case refine_2.some =>
    intro h0
    rw [hmain]
    by_cases h1 : 2147483647 < toks.length
    · rw [stageTokens_large _ h0 h1]
      simp [h1]
    · by_cases hcont : ({ s with addSpecialArg := decide (s.prevLen = 0) } : EngineState).storeChats = true
          ∧ 0 < ({ s with addSpecialArg := decide (s.prevLen = 0) } : EngineState).prevLen
      · rw [stageTokens_cont _ h0 h1 hcont.1 hcont.2]
        simp [h1]
      · rw [stageTokens_fresh _ h0 h1 hcont]
        simp [h1]

/-- Witness for the amended C5 at a concrete input. -/

theorem prompt_validation_amended_witness :
    (startCompletion oNine (loadState 8 true) []).2 = Except.error Err.emptyPrompt
      ↔ ([1, 2, 3, 4, 5, 6, 7, 8, 9] : List Int).length = 0 :=
  (prompt_validation_amended oNine (loadState 8 true) []
    [1, 2, 3, 4, 5, 6, 7, 8, 9] (by decide)).1

/-- Claim C6: the prompt suffix is tokenized with BOS marking enabled
exactly when `prevLen` (after the persistence reset) is zero; in
particular a persistent continuation with `prevLen > 0` never re-inserts
a beginning-of-sequence marker. -/

theorem bos_iff_fresh (o : Oracles) (st : EngineState) (q : List Nat)
    (hnr : (startCompletion o st q).2 ≠ Except.error Err.renderError) :
    (startCompletion o st q).1.addSpecialArg
      = decide ((if st.storeChats = true then st.prevLen else 0) = 0)
    ∧ (st.storeChats = true → 0 < st.prevLen →
        (startCompletion o st q).1.addSpecialArg = false) := by
  obtain ⟨p1, _, _, _, _⟩ := prepPhase_fields st q
  set s := appendUserQuery (clearTurnState (resetPhase st)) q with hs
  have hdef : startCompletion o st q = stagePhase o s := rfl
  rcases hr : o.render s.messages true with _ | full
  · rw [hdef, stagePhase_none o s hr] at hnr
    simp at hnr
  · rw [hdef, stagePhase_some o s full hr]
    have hpres := (stageTokens_preserves
      (o.tokenize (full.drop s.prevLen.toNat) (decide (s.prevLen = 0)))
      { s with addSpecialArg := decide (s.prevLen = 0) }).2.2.2.2
    constructor
    · rw [hpres]
      show decide (s.prevLen = 0) = decide ((if st.storeChats = true then st.prevLen else 0) = 0)
      rw [p1]
    · intro hsc hpl
      rw [hpres]
      show decide (s.prevLen = 0) = false
      rw [p1, if_pos hsc]
      exact decide_eq_false (by omega)

/-- Witness for C6 in the continuation case (`prevLen = 3 > 0`). -/

theorem bos_iff_fresh_witness :
    (startCompletion oNine stCont []).2 ≠ Except.error Err.renderError
    ∧ (startCompletion oNine stCont []).1.addSpecialArg
        = decide ((if stCont.storeChats = true then stCont.prevLen else 0) = 0) :=
  ⟨by decide, (bos_iff_fresh oNine stCont [] (by decide)).1⟩

theorem stopCompletion_store_ok (o : Oracles) (st : EngineState) (full : List Nat)
    (h : st.storeChats = true) (hr : o.render st.messages false = some full) :
    stopCompletion o st =
      ({ st with prevLen := (full.length : Int), response := [], cacheResponseTokens := [] },
        Except.ok ()) := by
  unfold stopCompletion
  rw [if_pos h, hr]

theorem stopCompletion_nostore (o : Oracles) (st : EngineState)
    (h : ¬ st.storeChats = true) :
    stopCompletion o st =
      ({ st with prevLen := 0, response := [], cacheResponseTokens := [] },
        Except.ok ()) := by
  unfold stopCompletion
  rw [if_neg h]

/-- Claim C8: after a successful `stopCompletion`, calling it again with
no intervening `startCompletion` succeeds and leaves `prevLen` at the
value the first call set, in both persistence modes. -/

theorem stop_idempotent (o : Oracles) (st : EngineState)
    (hok : (stopCompletion o st).2 = Except.ok ()) :
    (stopCompletion o (stopCompletion o st).1).2 = Except.ok ()
    ∧ (stopCompletion o (stopCompletion o st).1).1.prevLen
        = (stopCompletion o st).1.prevLen := by
  by_cases h : st.storeChats = true
  · rcases hr : o.render st.messages false with _ | full
    · exfalso
      unfold stopCompletion at hok
      rw [if_pos h, hr] at hok
      simp at hok
    · have h1 := stopCompletion_store_ok o st full h hr
      have hmsgs : ((stopCompletion o st).1).messages = st.messages := by rw [h1]
      have hsc : ((stopCompletion o st).1).storeChats = st.storeChats := by rw [h1]
      have h2 := stopCompletion_store_ok o (stopCompletion o st).1 full
        (by rw [hsc]; exact h) (by rw [hmsgs]; exact hr)
      rw [h2, h1]
      exact ⟨rfl, rfl⟩
  · have h1 := stopCompletion_nostore o st h
    have hsc : ((stopCompletion o st).1).storeChats = st.storeChats := by rw [h1]
    have h2 := stopCompletion_nostore o (stopCompletion o st).1 (by rw [hsc]; exact h)
    rw [h2, h1]
    exact ⟨rfl, rfl⟩

/-- Witness for C8 with persistence enabled and a two-byte render. -/

theorem stop_idempotent_witness :
    (stopCompletion oNine (loadState 8 true)).2 = Except.ok ()
    ∧ (stopCompletion oNine (stopCompletion oNine (loadState 8 true)).1).2 = Except.ok ()
    ∧ (stopCompletion oNine (stopCompletion oNine (loadState 8 true)).1).1.prevLen
        = (stopCompletion oNine (loadState 8 true)).1.prevLen :=
  ⟨by decide,
    (stop_idempotent oNine (loadState 8 true) (by decide)).1,
    (stop_idempotent oNine (loadState 8 true) (by decide)).2⟩

end LLMEdge
